import Mathlib

/-!
Verification of the region-decomposition and chunk-extraction core in
`delta/imagery/sources/basic_sources.py`.

The Python functions are shallowly embedded: Python ints become `ℤ` (or `ℕ`
for list indices), Python float arithmetic is modelled by exact rational
arithmetic (`ℚ`, with `math.floor` as `Int.floor`/`Nat.floor`), a Python
`assert` or raised exception becomes the `Except.error` branch of an
`Except` result, and the thread-pool filter is modelled by its deterministic
sequential semantics (the workers write disjoint indices of the flag array,
so any interleaving produces the same flags).
-/

/-- Axis-aligned integer rectangle, as used by `rectangle.Rectangle`:
half-open `[min_x, max_x) × [min_y, max_y)`. -/
structure Rectangle where
  min_x : ℤ
  min_y : ℤ
  max_x : ℤ
  max_y : ℤ
deriving Repr, DecidableEq

/-- Core computation of `horizontal_split` (the body after the `assert`):
`band_height = image_size[1] / num_splits` in exact (real-valued) arithmetic,
`min_y = floor(band_height *  region)`, `max_y = floor(band_height * (region + 1))`. -/
def horizontal_split_rect (image_size : ℤ × ℤ) (region : ℤ) (num_splits : ℤ) :
    Rectangle :=
  let min_x : ℤ := 0
  let max_x : ℤ := image_size.1
  let band_height : ℚ := (image_size.2 : ℚ) / (num_splits : ℚ)
  { min_x := min_x
    min_y := ⌊band_height * (region : ℚ)⌋
    max_x := max_x
    max_y := ⌊band_height * ((region : ℚ) + 1)⌋ }

/-- `horizontal_split(image_size, region, num_splits)`: the Python `assert
region < num_splits` is the only guard (there is no lower-bound check), its
failure is the `Except.error` branch. -/
def horizontal_split (image_size : ℤ × ℤ) (region : ℤ) (num_splits : ℤ) :
    Except String Rectangle :=
  if region < num_splits then
    Except.ok (horizontal_split_rect image_size region num_splits)
  else
    Except.error "Input region is greater than num_splits"

/-- Core computation of `tile_split` (the body after the `assert`):
row/column indices and tile sizes via `math.floor`, then the four corners,
each wrapped in `math.floor` exactly as in the source. -/
def tile_split_rect (image_size : ℤ × ℤ) (region : ℤ) (num_splits : ℤ) :
    Rectangle :=
  let tile_row : ℤ := ⌊(region : ℚ) / (num_splits : ℚ)⌋
  let tile_col : ℤ := region % num_splits
  let tile_width : ℤ := ⌊(image_size.1 : ℚ) / (num_splits : ℚ)⌋
  let tile_height : ℤ := ⌊(image_size.2 : ℚ) / (num_splits : ℚ)⌋
  { min_x := ⌊(tile_width : ℚ) * (tile_col : ℚ)⌋
    min_y := ⌊(tile_height : ℚ) * (tile_row : ℚ)⌋
    max_x := ⌊(tile_width : ℚ) * ((tile_col : ℚ) + 1)⌋
    max_y := ⌊(tile_height : ℚ) * ((tile_row : ℚ) + 1)⌋ }

/-- `tile_split(image_size, region, num_splits)`: guarded only by
`assert region < num_tiles` with `num_tiles = num_splits * num_splits`. -/
def tile_split (image_size : ℤ × ℤ) (region : ℤ) (num_splits : ℤ) :
    Except String Rectangle :=
  let num_tiles : ℤ := num_splits * num_splits
  if region < num_tiles then
    Except.ok (tile_split_rect image_size region num_splits)
  else
    Except.error "Input region is greater than num_tiles"

lemma floor_intCast_div_intCast_of_pos (a b : ℤ) (hb : 0 < b) :
    ⌊(a : ℚ) / (b : ℚ)⌋ = a / b := by
  lift b to ℕ using hb.le with n hn
  have := Rat.floor_intCast_div_natCast a n
  push_cast at this ⊢
  exact this

/-- C1: for every image size `(W, H)`, every `num_splits ≥ 1` and every
region `0 ≤ r < N`, `horizontal_split` succeeds and returns the rectangle
`(0, ⌊(H/N)·r⌋, W, ⌊(H/N)·(r+1)⌋)` with `H/N` the exact quotient. -/
theorem horizontal_split_formula (W H r N : ℤ) (hN : 1 ≤ N) (hr0 : 0 ≤ r)
    (hrN : r < N) :
    horizontal_split (W, H) r N =
      Except.ok
        { min_x := 0
          min_y := ⌊((H : ℚ) / (N : ℚ)) * (r : ℚ)⌋
          max_x := W
          max_y := ⌊((H : ℚ) / (N : ℚ)) * ((r : ℚ) + 1)⌋ } := by
  rw [horizontal_split, if_pos hrN]
  rfl

/-- C1 witness: `horizontal_split((100,100), 0, 1)` is the whole image
`Rectangle(0, 0, 100, 100)`. -/
theorem horizontal_split_formula_witness :
    horizontal_split (100, 100) 0 1 =
      Except.ok { min_x := 0, min_y := 0, max_x := 100, max_y := 100 } := by
  have h := horizontal_split_formula 100 100 0 1 (by norm_num) (by norm_num)
    (by norm_num)
  rw [h]
  norm_num

/-- C2: for `N > 1` the `N` horizontal bands are contiguous (each band's
`max_y` is the next band's `min_y`), pairwise disjoint in `y`, the first
band starts at `y = 0` and the last band ends exactly at `y = H` (so the
bands cover `[0, H)` with no rounding slack at all). -/
theorem horizontal_split_partition (W H N : ℤ) (hH : 0 ≤ H) (hN : 1 < N) :
    (∀ r : ℤ, 0 ≤ r → r + 1 < N →
        (horizontal_split_rect (W, H) r N).max_y =
          (horizontal_split_rect (W, H) (r + 1) N).min_y) ∧
    (∀ r s : ℤ, 0 ≤ r → r < s → s < N →
        (horizontal_split_rect (W, H) r N).max_y ≤
          (horizontal_split_rect (W, H) s N).min_y) ∧
    (horizontal_split_rect (W, H) 0 N).min_y = 0 ∧
    (horizontal_split_rect (W, H) (N - 1) N).max_y = H := by
  have hN0 : (0 : ℚ) < (N : ℚ) := by exact_mod_cast lt_trans one_pos hN
  have hbh : (0 : ℚ) ≤ (H : ℚ) / (N : ℚ) :=
    div_nonneg (by exact_mod_cast hH) hN0.le
  refine ⟨?_, ?_, ?_, ?_⟩
  · intro r _ _
    simp only [horizontal_split_rect]
    push_cast
    ring_nf
  · intro r s _ hrs _
    simp only [horizontal_split_rect]
    apply Int.floor_le_floor
    apply mul_le_mul_of_nonneg_left _ hbh
    have : r + 1 ≤ s := hrs
    exact_mod_cast this
  · simp [horizontal_split_rect]
  · simp only [horizontal_split_rect]
    have h1 : ((N : ℤ) - 1 : ℤ) = N - 1 := rfl
    have : (((N - 1 : ℤ) : ℚ) + 1) = (N : ℚ) := by push_cast; ring
    rw [this, div_mul_cancel₀ _ hN0.ne']
    exact Int.floor_intCast H

/-- C2 witness: for size `(10, 10)` and `N = 3` the three bands meet at the
claimed boundaries: band 0 ends where band 1 begins, band 0 starts at 0 and
band 2 ends at 10. -/
theorem horizontal_split_partition_witness :
    (horizontal_split_rect (10, 10) 0 3).max_y =
        (horizontal_split_rect (10, 10) 1 3).min_y ∧
    (horizontal_split_rect (10, 10) 0 3).min_y = 0 ∧
    (horizontal_split_rect (10, 10) 2 3).max_y = 10 := by
  have h := horizontal_split_partition 10 10 3 (by norm_num) (by norm_num)
  refine ⟨?_, h.2.2.1, ?_⟩
  · have := h.1 0 (by norm_num) (by norm_num)
    simpa using this
  · have := h.2.2.2
    norm_num at this
    exact this

/-- C3: for every image size `(W, H)`, `N ≥ 1` and region `0 ≤ region < N²`,
`tile_split` succeeds and returns the grid tile at
`(row, col) = (region / N, region % N)` whose corner is
`(⌊W/N⌋·col, ⌊H/N⌋·row)` and whose far corner is
`(⌊W/N⌋·(col+1), ⌊H/N⌋·(row+1))` (integer division is floor division here
since all quantities are nonnegative). -/
theorem tile_split_grid (W H region N : ℤ) (hW : 0 ≤ W) (hH : 0 ≤ H)
    (hN : 0 < N) (hr0 : 0 ≤ region) (hrN : region < N * N) :
    tile_split (W, H) region N =
      Except.ok
        { min_x := W / N * (region % N)
          min_y := H / N * (region / N)
          max_x := W / N * (region % N + 1)
          max_y := H / N * (region / N + 1) } := by
  rw [tile_split]
  simp only [hrN, if_pos]
  rw [tile_split_rect]
  simp only [floor_intCast_div_intCast_of_pos _ _ hN]
  congr 1
  refine Rectangle.mk.injEq _ _ _ _ _ _ _ _ ▸ ?_
  refine ⟨?_, ?_, ?_, ?_⟩
  · rw [← Int.cast_mul, Int.floor_intCast]
  · rw [← Int.cast_mul, Int.floor_intCast]
  · have : ((region % N : ℤ) : ℚ) + 1 = ((region % N + 1 : ℤ) : ℚ) := by
      push_cast; ring
    rw [this, ← Int.cast_mul, Int.floor_intCast]
  · have : ((region / N : ℤ) : ℚ) + 1 = ((region / N + 1 : ℤ) : ℚ) := by
      push_cast; ring
    rw [this, ← Int.cast_mul, Int.floor_intCast]

/-- C3 witness: `tile_split((10,10), 8, 3)` is the bottom-right tile
`Rectangle(6, 6, 9, 9)`. -/
theorem tile_split_grid_witness :
    tile_split (10, 10) 8 3 =
      Except.ok { min_x := 6, min_y := 6, max_x := 9, max_y := 9 } := by
  have h := tile_split_grid 10 10 8 3 (by norm_num) (by norm_num) (by norm_num)
    (by norm_num) (by norm_num)
  rw [h]
  norm_num

/-- C4 counterexample: `region = -1` does not fail. `horizontal_split` has no
lower-bound check, so `horizontal_split((10,10), -1, 2)` succeeds and returns
the degenerate rectangle `(0, -5, 10, 0)`; likewise `tile_split((10,10), -1, 3)`
succeeds. The claim says a negative region must fail for both. -/
theorem split_negative_region_accepted :
    horizontal_split (10, 10) (-1) 2 =
        Except.ok { min_x := 0, min_y := -5, max_x := 10, max_y := 0 } ∧
    (tile_split (10, 10) (-1) 3).isOk = true := by
  constructor
  · rw [horizontal_split, if_pos (by norm_num)]
    rw [horizontal_split_rect]
    norm_num
  · rw [tile_split]
    norm_num [Except.isOk, Except.toBool]

/-- C4 amended: each split function checks only the upper bound of the region
index: `horizontal_split` fails exactly when `region ≥ num_splits` and
`tile_split` fails exactly when `region ≥ num_splits²` (negative regions are
accepted); in particular `tile_split((10,10), 9, 3)` fails and
`tile_split((10,10), 8, 3)` succeeds as the bottom-right tile. -/
theorem split_region_guard :
    (∀ (s : ℤ × ℤ) (r N : ℤ), (horizontal_split s r N).isOk = true ↔ r < N) ∧
    (∀ (s : ℤ × ℤ) (r N : ℤ), (tile_split s r N).isOk = true ↔ r < N * N) ∧
    (tile_split (10, 10) 9 3).isOk = false ∧
    tile_split (10, 10) 8 3 =
      Except.ok { min_x := 6, min_y := 6, max_x := 9, max_y := 9 } := by
  refine ⟨?_, ?_, ?_, ?_⟩
  · intro s r N
    rw [horizontal_split]
    by_cases h : r < N <;> simp [h, Except.isOk, Except.toBool]
  · intro s r N
    rw [tile_split]
    by_cases h : r < N * N <;> simp [h, Except.isOk, Except.toBool]
  · rw [tile_split]
    norm_num [Except.isOk, Except.toBool]
  · rw [tile_split, if_pos (by norm_num)]
    rw [tile_split_rect]
    norm_num

/-- `DeltaImage.estimate_memory_usage` with the handle's fields already
resolved: `width`/`height` from `self.size()`, `num_regions` from the handle,
`num_bands ≥ 1` (the `if num_bands < 1` fallback already taken), and
`elem_size = sys.getsizeof(data_type(0))`. Python float arithmetic is
modelled exactly over `ℚ`. -/
def estimate_memory_usage (width height num_regions chunk_size chunk_overlap
    num_bands elem_size : ℚ) : ℚ :=
  let height' := height / num_regions
  let num_pixels := height' * width
  let spacing := chunk_size - chunk_overlap
  let num_chunks := num_pixels / (spacing * spacing)
  let chunk_area := chunk_size * chunk_size
  num_chunks * chunk_area * num_bands * elem_size

/-- Python division, which raises `ZeroDivisionError` on a zero divisor
instead of returning a value. -/
def py_div (a b : ℚ) : Except String ℚ :=
  if b = 0 then Except.error "ZeroDivisionError" else Except.ok (a / b)

/-- `DeltaImage.estimate_memory_usage` with Python error semantics for the
two divisions (`height / num_regions` and `num_pixels / spacing²`); same
shape as `estimate_memory_usage` otherwise. -/
def estimate_memory_usage_run (width height num_regions chunk_size
    chunk_overlap num_bands elem_size : ℚ) : Except String ℚ :=
  match py_div height num_regions with
  | Except.error e => Except.error e
  | Except.ok height' =>
    let num_pixels := height' * width
    let spacing := chunk_size - chunk_overlap
    match py_div num_pixels (spacing * spacing) with
    | Except.error e => Except.error e
    | Except.ok num_chunks =>
      let chunk_area := chunk_size * chunk_size
      Except.ok (num_chunks * chunk_area * num_bands * elem_size)

/-- C5 counterexample: the estimate is not monotonically increasing in
`chunk_size`. With size 100×100, one region, one band, 8-byte elements and
`chunk_overlap = 2`, growing `chunk_size` from 3 to 4 shrinks the estimate
from 720000 to 320000 bytes. -/
theorem estimate_memory_usage_not_increasing_in_chunk_size :
    estimate_memory_usage 100 100 1 4 2 1 8 <
      estimate_memory_usage 100 100 1 3 2 1 8 := by
  norm_num [estimate_memory_usage]

/-- C5 amended: for positive size, region count, band count and element size
and `0 ≤ chunk_overlap < chunk_size`, the estimate is monotonically
NON-INCREASING in `chunk_size` (the `chunk_size/stride` ratio shrinks as
`chunk_size` grows), monotonically increasing in `num_bands`, and grows as
`chunk_overlap` increases toward `chunk_size`. -/
lemma chunk_count_area_ratio_antitone (P o c c' : ℚ) (hP : 0 < P) (ho : 0 ≤ o)
    (hoc : o < c) (hcc : c ≤ c') :
    P / ((c' - o) * (c' - o)) * (c' * c') ≤ P / ((c - o) * (c - o)) * (c * c) := by
  have hc : 0 < c := lt_of_le_of_lt ho hoc
  have hc' : 0 < c' := lt_of_lt_of_le hc hcc
  have hs : 0 < c - o := by linarith
  have hs' : 0 < c' - o := by linarith
  rw [div_mul_eq_mul_div, div_mul_eq_mul_div,
    div_le_div_iff₀ (by positivity) (by positivity)]
  have hkey : c' * (c - o) ≤ c * (c' - o) := by nlinarith
  have hsq : (c' * (c - o)) * (c' * (c - o)) ≤ (c * (c' - o)) * (c * (c' - o)) :=
    mul_self_le_mul_self (by positivity) hkey
  have := mul_le_mul_of_nonneg_left hsq hP.le
  nlinarith [this]

theorem estimate_memory_usage_monotone (W H R B E o c c' : ℚ) (hW : 0 < W)
    (hH : 0 < H) (hR : 0 < R) (hB : 0 < B) (hE : 0 < E) (ho : 0 ≤ o)
    (hoc : o < c) (hcc : c ≤ c') :
    (estimate_memory_usage W H R c' o B E ≤ estimate_memory_usage W H R c o B E) ∧
    (∀ B', B ≤ B' →
      estimate_memory_usage W H R c o B E ≤ estimate_memory_usage W H R c o B' E) ∧
    (∀ o', o ≤ o' → o' < c →
      estimate_memory_usage W H R c o B E ≤ estimate_memory_usage W H R c o' B E) := by
  have hP : 0 < H / R * W := by positivity
  have hc : 0 < c := lt_of_le_of_lt ho hoc
  have hc' : 0 < c' := lt_of_lt_of_le hc hcc
  have hs : 0 < c - o := by linarith
  have hs' : 0 < c' - o := by linarith
  refine ⟨?_, ?_, ?_⟩
  · simp only [estimate_memory_usage]
    have h1 := chunk_count_area_ratio_antitone (H / R * W) o c c' hP ho hoc hcc
    exact mul_le_mul_of_nonneg_right (mul_le_mul_of_nonneg_right h1 hB.le) hE.le
  · intro B' hBB'
    simp only [estimate_memory_usage]
    have hK : 0 ≤ H / R * W / ((c - o) * (c - o)) * (c * c) := by positivity
    exact mul_le_mul_of_nonneg_right (mul_le_mul_of_nonneg_left hBB' hK) hE.le
  · intro o' hoo' ho'c
    simp only [estimate_memory_usage]
    have hs'' : 0 < c - o' := by linarith
    have hmono : H / R * W / ((c - o) * (c - o)) ≤ H / R * W / ((c - o') * (c - o')) := by
      apply div_le_div_of_nonneg_left hP.le (by positivity)
      nlinarith
    have h1 : 0 ≤ c * c := by positivity
    have h2 := mul_le_mul_of_nonneg_right hmono h1
    have h3 := mul_le_mul_of_nonneg_right h2 hB.le
    exact mul_le_mul_of_nonneg_right h3 hE.le

/-- C5 witness: monotonicity at a concrete input. With size 100×100, one
region, one band, 8-byte elements, overlap 2: raising chunk size from 3 to 4
does not raise the estimate. -/
theorem estimate_memory_usage_monotone_witness :
    estimate_memory_usage 100 100 1 4 2 1 8 ≤
      estimate_memory_usage 100 100 1 3 2 1 8 :=
  (estimate_memory_usage_monotone 100 100 1 1 8 2 3 4 (by norm_num)
    (by norm_num) (by norm_num) (by norm_num) (by norm_num) (by norm_num)
    (by norm_num) (by norm_num)).1

/-- C10: with `chunk_overlap = chunk_size` the stride is zero and the
un-guarded division `num_pixels / (spacing * spacing)` raises
`ZeroDivisionError` (for any resolved size and positive `num_regions`),
rather than returning a value or raising `InvalidArgument`. -/
theorem estimate_memory_usage_zero_stride (W H R c o B E : ℚ) (hR : R ≠ 0)
    (h : o = c) :
    estimate_memory_usage_run W H R c o B E =
      Except.error "ZeroDivisionError" := by
  subst h
  simp [estimate_memory_usage_run, py_div, hR]

/-- C10 witness: a 100×100 image with one region, chunk size 10 and overlap
10 hits the division by zero. -/
theorem estimate_memory_usage_zero_stride_witness :
    estimate_memory_usage_run 100 100 1 10 10 1 8 =
      Except.error "ZeroDivisionError" :=
  estimate_memory_usage_zero_stride 100 100 1 10 10 1 8 (by norm_num) rfl

/-- One chunk of a `ChunkBatch`: the list of bands, each band the flattened
list of its `width * height` pixels. -/
abbrev Chunk := List (List ℤ)

/-- A 4D chunk batch of shape `(num_chunks, num_bands, width, height)`. -/
structure ChunkBatch where
  chunks : List Chunk
  width : ℕ
  height : ℕ
deriving Repr, DecidableEq

/-- `np.count_nonzero` on a flattened pixel list. -/
def count_nonzero (xs : List ℤ) : ℕ :=
  (xs.filter (fun x => decide (x ≠ 0))).length

/-- `data[i, 0, :, :]`: band 0 of a chunk, the only band the filter looks at. -/
def chunk_band0 (c : Chunk) : List ℤ :=
  c.headD []

/-- Body of the loop inside `check_chunks`: flag chunk `i` invalid when the
count of nonzero pixels in its band 0 differs from `num_chunk_pixels`. -/
def mark_invalid (chunks : List Chunk) (num_chunk_pixels : ℕ)
    (valid : List Bool) (i : ℕ) : List Bool :=
  if count_nonzero (chunk_band0 (chunks.getD i [])) ≠ num_chunk_pixels then
    valid.set i false
  else
    valid

/-- The internal `check_chunks(pair)` worker: walk the indices from
`start_index` to `stop_index` (non-inclusive) and flag nodata chunks. -/
def check_chunks (chunks : List Chunk) (num_chunk_pixels : ℕ)
    (valid : List Bool) (pair : ℕ × ℕ) : List Bool :=
  (List.range' pair.1 (pair.2 - pair.1)).foldl
    (mark_invalid chunks num_chunk_pixels) valid

/-- The static work split: `thread_size = num_chunks / num_threads` as an
exact (float-modelled) quotient, worker `i` gets
`[floor(i * thread_size), floor((i+1) * thread_size))`. -/
def splits_of (num_chunks num_threads : ℕ) : List (ℕ × ℕ) :=
  (List.range num_threads).map fun (i : ℕ) =>
    (⌊(i : ℚ) * ((num_chunks : ℚ) / (num_threads : ℚ))⌋₊,
     ⌊((i : ℚ) + 1) * ((num_chunks : ℚ) / (num_threads : ℚ))⌋₊)

/-- `parallel_filter_chunks(data, num_threads)`: build the per-worker index
ranges, let every worker flag the invalid chunks in its range (the workers
touch disjoint flags, so running them in any order — here sequentially —
yields the thread-pool's result), then keep the chunks whose flag is still
set, in index order. -/
def parallel_filter_chunks (data : ChunkBatch) (num_threads : ℕ) : ChunkBatch :=
  let num_chunks := data.chunks.length
  let num_chunk_pixels := data.width * data.height
  let valid_chunks := List.replicate num_chunks true
  let splits := splits_of num_chunks num_threads
  let valid := splits.foldl (check_chunks data.chunks num_chunk_pixels) valid_chunks
  let valid_indices := (List.range num_chunks).filter (fun i => valid.getD i false)
  { data with chunks := valid_indices.map (fun i => data.chunks.getD i []) }

lemma floor_mul_div (a K T : ℕ) :
    ⌊(a : ℚ) * ((K : ℚ) / (T : ℚ))⌋₊ = a * K / T := by
  rw [← mul_div_assoc]
  have h : (a : ℚ) * (K : ℚ) = ((a * K : ℕ) : ℚ) := by push_cast; ring
  rw [h, Nat.floor_div_eq_div]

lemma splits_of_eq (K T : ℕ) :
    splits_of K T =
      (List.range T).map (fun i => (i * K / T, (i + 1) * K / T)) := by
  unfold splits_of
  refine List.map_congr_left fun i _ => ?_
  have h1 : ((i : ℚ) + 1) = ((i + 1 : ℕ) : ℚ) := by push_cast; ring
  rw [h1, floor_mul_div, floor_mul_div]

lemma foldl_check_chunks_ranges (chunks : List Chunk) (numPix : ℕ)
    (f : ℕ → ℕ) (hmono : ∀ i, f i ≤ f (i + 1)) (n : ℕ) (v : List Bool) :
    ((List.range n).map (fun i => (f i, f (i + 1)))).foldl
        (check_chunks chunks numPix) v
      = check_chunks chunks numPix v (f 0, f n) := by
  induction n with
  | zero => simp [check_chunks]
  | succ n ih =>
    rw [List.range_succ, List.map_append, List.foldl_append, ih]
    simp only [List.map_cons, List.map_nil, List.foldl_cons, List.foldl_nil]
    rw [check_chunks, check_chunks, check_chunks, ← List.foldl_append]
    congr 1
    have h0n : f 0 ≤ f n := (monotone_nat_of_le_succ hmono) (Nat.zero_le n)
    have hnn : f n ≤ f (n + 1) := hmono n
    have happ := List.range'_append_1 (f 0) (f n - f 0) (f (n + 1) - f n)
    rw [show f 0 + (f n - f 0) = f n by omega] at happ
    rw [happ]
    congr 1
    omega

lemma getD_foldl_mark_invalid (chunks : List Chunk) (numPix : ℕ)
    (l : List ℕ) (v : List Bool) (j : ℕ) :
    (l.foldl (mark_invalid chunks numPix) v).getD j false
      = if j ∈ l ∧ count_nonzero (chunk_band0 (chunks.getD j [])) ≠ numPix
        then false
        else v.getD j false := by
  induction l generalizing v with
  | nil => simp
  | cons i l ih =>
    rw [List.foldl_cons, ih]
    by_cases hjl : j ∈ l ∧ count_nonzero (chunk_band0 (chunks.getD j [])) ≠ numPix
    · rw [if_pos hjl,
        if_pos (show j ∈ i :: l ∧
            count_nonzero (chunk_band0 (chunks.getD j [])) ≠ numPix from
          ⟨List.mem_cons.mpr (Or.inr hjl.1), hjl.2⟩)]
    · rw [if_neg hjl]
      by_cases hij : i = j
      · subst hij
        by_cases hinv : count_nonzero (chunk_band0 (chunks.getD i [])) ≠ numPix
        · rw [mark_invalid, if_pos hinv,
            if_pos ⟨List.mem_cons_self i l, hinv⟩]
          rw [List.getD_eq_getElem?_getD, List.getElem?_set]
          by_cases hlen : i < v.length
          · simp [hlen]
          · simp [hlen]
        · rw [mark_invalid, if_neg hinv]
          rw [if_neg]
          intro hc
          exact hinv hc.2
      · have hmark : (mark_invalid chunks numPix v i).getD j false
            = v.getD j false := by
          rw [mark_invalid]
          by_cases hinv : count_nonzero (chunk_band0 (chunks.getD i [])) ≠ numPix
          · rw [if_pos hinv, List.getD_eq_getElem?_getD,
              List.getElem?_set_ne hij, ← List.getD_eq_getElem?_getD]
          · rw [if_neg hinv]
        rw [hmark]
        rw [if_neg]
        intro hc
        rcases hc with ⟨hmem, hinv⟩
        rcases List.mem_cons.mp hmem with h | h
        · exact hij h.symm
        · exact hjl ⟨h, hinv⟩

lemma range_filter_map_getD {α : Type} (l : List α) (d : α) (p : α → Bool) :
    ((List.range l.length).filter (fun i => p (l.getD i d))).map
        (fun i => l.getD i d) = l.filter p := by
  induction l with
  | nil => simp
  | cons a t ih =>
    rw [List.length_cons, List.range_succ_eq_map]
    have hq0 : (fun i => p ((a :: t).getD i d)) 0 = p a := rfl
    have hcomp :
        ((fun i => p ((a :: t).getD i d)) ∘ Nat.succ)
          = (fun i => p (t.getD i d)) := rfl
    have hcomp2 :
        ((fun i => (a :: t).getD i d) ∘ Nat.succ)
          = (fun i => t.getD i d) := rfl
    by_cases hpa : p a
    · have hfc : List.filter (fun i => p ((a :: t).getD i d))
            (0 :: List.map Nat.succ (List.range t.length))
          = 0 :: List.filter (fun i => p ((a :: t).getD i d))
              (List.map Nat.succ (List.range t.length)) :=
        List.filter_cons_of_pos hpa
      rw [hfc, List.map_cons,
        List.filter_map, hcomp, List.map_map, hcomp2, ih,
        List.filter_cons_of_pos hpa]
      rfl
    · have hfc : List.filter (fun i => p ((a :: t).getD i d))
            (0 :: List.map Nat.succ (List.range t.length))
          = List.filter (fun i => p ((a :: t).getD i d))
              (List.map Nat.succ (List.range t.length)) :=
        List.filter_cons_of_neg hpa
      rw [hfc,
        List.filter_map, hcomp, List.map_map, hcomp2, ih,
        List.filter_cons_of_neg hpa]

/-- The validity predicate the filter actually implements: every pixel of the
chunk's band 0 is nonzero. -/
def chunk_fully_valid (num_chunk_pixels : ℕ) (c : Chunk) : Bool :=
  count_nonzero (chunk_band0 c) == num_chunk_pixels

lemma parallel_filter_chunks_characterization (data : ChunkBatch)
    (T : ℕ) (hT : 1 ≤ T) :
    parallel_filter_chunks data T =
      { data with
        chunks := data.chunks.filter
          (chunk_fully_valid (data.width * data.height)) } := by
  unfold parallel_filter_chunks
  dsimp only
  have hT0 : T ≠ 0 := Nat.one_le_iff_ne_zero.mp hT
  set K := data.chunks.length with hK
  set numPix := data.width * data.height with hnp
  rw [splits_of_eq]
  rw [foldl_check_chunks_ranges data.chunks numPix (fun i => i * K / T)
    (fun i => Nat.div_le_div_right (Nat.mul_le_mul_right K (Nat.le_succ i))) T]
  have hzero : 0 * K / T = 0 := by simp
  have hfull : T * K / T = K := by
    rw [Nat.mul_div_cancel_left K (Nat.pos_of_ne_zero hT0)]
  rw [check_chunks]
  simp only [hzero, hfull, Nat.sub_zero]
  rw [← List.range_eq_range']
  congr 1
  have hvalid : ∀ j, j < K →
      ((List.range K).foldl (mark_invalid data.chunks numPix)
          (List.replicate K true)).getD j false
        = chunk_fully_valid numPix (data.chunks.getD j []) := by
    intro j hj
    rw [getD_foldl_mark_invalid]
    have hmem : j ∈ List.range K := List.mem_range.mpr hj
    have hrep : (List.replicate K true).getD j false = true := by
      rw [List.getD_eq_getElem?_getD, List.getElem?_replicate, if_pos hj]
      rfl
    by_cases hinv : count_nonzero (chunk_band0 (data.chunks.getD j [])) ≠ numPix
    · rw [if_pos ⟨hmem, hinv⟩, chunk_fully_valid]
      exact (beq_eq_false_iff_ne.mpr hinv).symm
    · rw [if_neg (fun hc => hinv hc.2), hrep, chunk_fully_valid]
      push_neg at hinv
      exact (beq_iff_eq.mpr hinv).symm
  have hfilter :
      ((List.range K).filter (fun i =>
          ((List.range K).foldl (mark_invalid data.chunks numPix)
            (List.replicate K true)).getD i false))
        = (List.range K).filter (fun i =>
            chunk_fully_valid numPix (data.chunks.getD i [])) := by
    apply List.filter_congr
    intro i hi
    exact hvalid i (List.mem_range.mp hi)
  rw [hfilter, hK]
  exact range_filter_map_getD data.chunks [] (chunk_fully_valid numPix)

/-- C6 counterexample: a chunk that is NOT entirely zero is still removed.
The batch has one 2×1 chunk whose band 0 is `[1, 0]`: it has a nonzero
pixel (it is not wholly composed of zeros), yet `parallel_filter_chunks`
removes it, because the filter drops every chunk containing ANY zero pixel,
not only the all-zero ones. -/
theorem filter_removes_partially_zero_chunk :
    count_nonzero (chunk_band0 [[(1 : ℤ), 0]]) ≠ 0 ∧
    (parallel_filter_chunks { chunks := [[[(1 : ℤ), 0]]], width := 2, height := 1 } 1).chunks
      = [] := by
  constructor
  · decide
  · rw [parallel_filter_chunks_characterization _ 1 le_rfl]
    decide

/-- C6 amended: for every batch and positive thread count,
`parallel_filter_chunks` returns the ordered subsequence of exactly those
chunks whose band-0 pixel content contains NO zero pixel (every chunk with
at least one zero pixel in band 0 is removed; the other axes — width,
height — are preserved); the number of removed chunks is the length
difference, reported by the function's remaining-count print. -/
theorem parallel_filter_chunks_spec (data : ChunkBatch) (T : ℕ) (hT : 1 ≤ T) :
    parallel_filter_chunks data T =
      { data with
        chunks := data.chunks.filter
          (chunk_fully_valid (data.width * data.height)) } :=
  parallel_filter_chunks_characterization data T hT

/-- C6 witness: on a concrete batch of two 2×1 chunks, the chunk with no
zero pixels is kept and the all-zero chunk is removed, with one thread. -/
theorem parallel_filter_chunks_spec_witness :
    parallel_filter_chunks
        { chunks := [[[(1 : ℤ), 2]], [[(0 : ℤ), 0]]], width := 2, height := 1 } 1
      = { chunks := [[[(1 : ℤ), 2]]], width := 2, height := 1 } := by
  rw [parallel_filter_chunks_spec
    { chunks := [[[(1 : ℤ), 2]], [[(0 : ℤ), 0]]], width := 2, height := 1 } 1 le_rfl]
  decide

/-- C7: the result of `parallel_filter_chunks` does not depend on the thread
count: any two positive thread counts produce identical output, because the
per-worker index ranges `[⌊i·K/T⌋, ⌊(i+1)·K/T⌋)` statically partition
`[0, K)` and each worker writes only its own disjoint flags. -/
theorem parallel_filter_chunks_thread_invariant (data : ChunkBatch)
    (T1 T2 : ℕ) (h1 : 1 ≤ T1) (h2 : 1 ≤ T2) :
    parallel_filter_chunks data T1 = parallel_filter_chunks data T2 :=
  (parallel_filter_chunks_characterization data T1 h1).trans
    (parallel_filter_chunks_characterization data T2 h2).symm

/-- C7 witness: on a concrete batch of three chunks, 1 thread and 3 threads
yield identical output. -/
theorem parallel_filter_chunks_thread_invariant_witness :
    parallel_filter_chunks
        { chunks := [[[(1 : ℤ), 2]], [[(0 : ℤ), 3]], [[(4 : ℤ), 5]]],
          width := 2, height := 1 } 1
      = parallel_filter_chunks
          { chunks := [[[(1 : ℤ), 2]], [[(0 : ℤ), 3]], [[(4 : ℤ), 5]]],
            width := 2, height := 1 } 3 :=
  parallel_filter_chunks_thread_invariant
    { chunks := [[[(1 : ℤ), 2]], [[(0 : ℤ), 3]], [[(4 : ℤ), 5]]],
      width := 2, height := 1 } 1 3 (by decide) (by decide)

/-- Python exception kinds raised by the image classes. -/
inductive PyErr where
  | notImplementedError : PyErr
deriving Repr, DecidableEq

/-- `TFRecordImage` handle state: `__init__` stores the path and region
count and sets `self._num_bands = None`, `self._size = None`. -/
structure TFRecordImage where
  path : String
  num_regions : ℤ
  _num_bands : Option ℤ
  _size : Option (ℤ × ℤ)

/-- `TFRecordImage.__init__(path, _, num_regions)`. -/
def TFRecordImage.init (path : String) (num_regions : ℤ) : TFRecordImage :=
  { path := path, num_regions := num_regions, _num_bands := none, _size := none }

/-- `TFRecordImage.read`: unconditionally `raise NotImplementedError()`. -/
def TFRecordImage.read (_img : TFRecordImage) (_data_type : ℕ)
    (_roi : Option Rectangle) : Except PyErr (List ℚ) :=
  Except.error PyErr.notImplementedError

/-- `TFRecordImage.chunk_image_region`: the body is `pass`, so the call
raises nothing and returns Python `None`. -/
def TFRecordImage.chunk_image_region (_img : TFRecordImage) (_roi : Rectangle)
    (_chunk_size _chunk_overlap : ℤ) (_data_type : ℕ) :
    Except PyErr (Option ChunkBatch) :=
  Except.ok none

/-- `TFRecordImage.__get_bands_size`: one query of the record-metadata
capability (`get_record_info(path) -> (num_bands, width, height)`), caching
both derived fields. -/
def TFRecordImage.get_bands_size (img : TFRecordImage)
    (get_record_info : String → ℤ × ℤ × ℤ) : TFRecordImage :=
  let info := get_record_info img.path
  { img with _num_bands := some info.1, _size := some (info.2.1, info.2.2) }

/-- `TFRecordImage.get_num_bands`: resolve on first call, then cached.
Returns (value, updated handle, number of backing-resource queries made by
this call). -/
def TFRecordImage.get_num_bands (img : TFRecordImage)
    (get_record_info : String → ℤ × ℤ × ℤ) : ℤ × TFRecordImage × ℕ :=
  match img._num_bands with
  | none =>
    let img' := img.get_bands_size get_record_info
    (img'._num_bands.getD 0, img', 1)
  | some b => (b, img, 0)

/-- `TFRecordImage.size`: resolve on first call, then cached. Returns
(value, updated handle, number of backing-resource queries made). -/
def TFRecordImage.size (img : TFRecordImage)
    (get_record_info : String → ℤ × ℤ × ℤ) : (ℤ × ℤ) × TFRecordImage × ℕ :=
  match img._size with
  | none =>
    let img' := img.get_bands_size get_record_info
    (img'._size.getD (0, 0), img', 1)
  | some s => (s, img, 0)

/-- `DeltaImage.tiles` for a `TFRecordImage` handle: one `horizontal_split`
Rectangle per region index, over the handle's own `num_regions`, using
`self.size()`. Returns (the yielded sequence, updated handle, backing
queries made). -/
def TFRecordImage.tiles (img : TFRecordImage)
    (get_record_info : String → ℤ × ℤ × ℤ) :
    List (Except String Rectangle) × TFRecordImage × ℕ :=
  let r := img.size get_record_info
  ((List.range img.num_regions.toNat).map
      (fun i => horizontal_split r.1 (i : ℤ) img.num_regions),
   r.2.1, r.2.2)

/-- `TiffImage` handle: stores only the path and region count — `size` and
`get_num_bands` hold no cache fields at all. -/
structure TiffImage where
  path : String
  num_regions : ℤ

/-- `TiffImage.size`: `prep()` then open a fresh `MultiTiffFileReader`, load
the image and ask its size — one backing query on EVERY call, no caching,
handle state unchanged. -/
def TiffImage.size (img : TiffImage) (reader_image_size : String → ℤ × ℤ) :
    (ℤ × ℤ) × TiffImage × ℕ :=
  (reader_image_size img.path, img, 1)

/-- `TiffImage.get_num_bands`: same shape — a fresh reader and one backing
query on every call. -/
def TiffImage.get_num_bands (img : TiffImage)
    (reader_num_bands : String → ℤ) : ℤ × TiffImage × ℕ :=
  (reader_num_bands img.path, img, 1)

/-- C8 (code evaluated at the failing input): on a `TFRecordImage` handle,
`read` does raise `NotImplementedError`, but `chunk_image_region` silently
returns `None` for a concrete argument combination instead of raising — its
body is `pass`, contradicting the abstract contract's documented chunk-array
result and the claim that both operations fail. -/
theorem tfrecord_unsupported_behavior :
    TFRecordImage.read (TFRecordImage.init "image.tfrecord" 1) 0 none
        = Except.error PyErr.notImplementedError ∧
    TFRecordImage.chunk_image_region (TFRecordImage.init "image.tfrecord" 1)
        { min_x := 0, min_y := 0, max_x := 10, max_y := 10 } 10 0 0
      = Except.ok none :=
  ⟨rfl, rfl⟩

/-- C9 counterexample: a `TiffImage` handle does NOT cache its size. After a
first successful `size()` call, a second call on the returned handle still
performs one backing-resource query (third component `1`, not `0`). -/
theorem tiff_size_requeries :
    (TiffImage.size
        ((TiffImage.size { path := "a.tif", num_regions := 1 }
            (fun _ => (5, 5))).2.1)
        (fun _ => (5, 5))).2.2 = 1 :=
  rfl

/-- C9 amended: `TFRecordImage` handles resolve band count and size at most
once and cache them — after a first `size()`/`get_num_bands()`/`tiles()`
call, repeating the call on the returned handle yields the same value with
zero further backing queries (so repeated `tiles()` yield the same Rectangle
sequence) — while `TiffImage` handles re-query the backing reader on every
`size()` and `get_num_bands()` call (no caching). -/
theorem image_caching_spec :
    (∀ (img : TFRecordImage) (gri : String → ℤ × ℤ × ℤ),
      TFRecordImage.size ((TFRecordImage.size img gri).2.1) gri
        = ((TFRecordImage.size img gri).1, (TFRecordImage.size img gri).2.1, 0)) ∧
    (∀ (img : TFRecordImage) (gri : String → ℤ × ℤ × ℤ),
      TFRecordImage.get_num_bands ((TFRecordImage.get_num_bands img gri).2.1) gri
        = ((TFRecordImage.get_num_bands img gri).1,
           (TFRecordImage.get_num_bands img gri).2.1, 0)) ∧
    (∀ (img : TFRecordImage) (gri : String → ℤ × ℤ × ℤ),
      TFRecordImage.tiles ((TFRecordImage.tiles img gri).2.1) gri
        = ((TFRecordImage.tiles img gri).1,
           (TFRecordImage.tiles img gri).2.1, 0)) ∧
    (∀ (img : TiffImage) (rs : String → ℤ × ℤ),
      (TiffImage.size img rs).2.2 = 1) ∧
    (∀ (img : TiffImage) (rb : String → ℤ),
      (TiffImage.get_num_bands img rb).2.2 = 1) := by
  have hsize : ∀ (img : TFRecordImage) (gri : String → ℤ × ℤ × ℤ),
      TFRecordImage.size ((TFRecordImage.size img gri).2.1) gri
        = ((TFRecordImage.size img gri).1, (TFRecordImage.size img gri).2.1, 0) := by
    intro img gri
    match h : img._size with
    | none =>
      simp [TFRecordImage.size, h, TFRecordImage.get_bands_size]
    | some s =>
      simp [TFRecordImage.size, h]
  have hregions : ∀ (img : TFRecordImage) (gri : String → ℤ × ℤ × ℤ),
      ((TFRecordImage.size img gri).2.1).num_regions = img.num_regions := by
    intro img gri
    match h : img._size with
    | none => simp [TFRecordImage.size, h, TFRecordImage.get_bands_size]
    | some s => simp [TFRecordImage.size, h]
  refine ⟨hsize, ?_, ?_, fun _ _ => rfl, fun _ _ => rfl⟩
  · intro img gri
    match h : img._num_bands with
    | none =>
      simp [TFRecordImage.get_num_bands, h, TFRecordImage.get_bands_size]
    | some b =>
      simp [TFRecordImage.get_num_bands, h]
  · intro img gri
    rw [TFRecordImage.tiles, TFRecordImage.tiles]
    rw [hsize img gri, hregions img gri]
